import Mathlib

/-!
Shallow embedding of src/stress.py, a load-generation harness that issues
randomized HTTP requests, bounds concurrency by chunking, and aggregates
latency and success statistics.  Python floats are modelled as rationals,
Python integers as naturals, Python exceptions / ZeroDivisionError as
Option results, and the random source as explicit residue arguments.
-/

namespace Stress

/-! ### Configuration constants (stress.py lines 8-28) -/

def BASE_URL : String := "https://fibbun.notacow.dev"

def NUM_REQUESTS : Nat := 100

def MAX_WORKERS : Nat := 50

def ENDPOINTS : List String :=
  ["/fibonacci/{n}", "/prime/{n}", "/factorial/{n}", "/pi/{n}",
   "/random-bytes/{n}", "/sort/{n}"]

/-- The keys of the N_RANGES dict (stress.py lines 21-28). -/
def N_RANGES_keys : List String :=
  ["/fibonacci/{n}", "/prime/{n}", "/factorial/{n}", "/pi/{n}",
   "/random-bytes/{n}", "/sort/{n}"]

/-- N_RANGES.get(endpoint, (1, 100)): the dict lookup with its default
(stress.py line 32). -/
def nRanges (endpoint : String) : Nat × Nat :=
  if endpoint = "/fibonacci/{n}" then (1, 200)
  else if endpoint = "/prime/{n}" then (1, 500)
  else if endpoint = "/factorial/{n}" then (1, 50)
  else if endpoint = "/pi/{n}" then (1, 20)
  else if endpoint = "/random-bytes/{n}" then (1, 1000)
  else if endpoint = "/sort/{n}" then (1, 1000)
  else (1, 100)

/-! ### Random sampling (stress.py lines 30-35)

random.choice picks an element of the list and random.randint(a, b) an
integer in [a, b] inclusive.  We model each draw by an arbitrary residue
r : Nat reduced into the required range, which realises exactly the
possible outputs. -/

/-- random.choice(ENDPOINTS): an arbitrary element of the list. -/
def chooseEndpoint (r : Nat) : String := ENDPOINTS.getD (r % ENDPOINTS.length) ""

/-- random.randint(lo, hi): an arbitrary integer in [lo, hi] inclusive. -/
def randint (lo hi r : Nat) : Nat := lo + r % (hi + 1 - lo)

def sampledEndpoint (r1 : Nat) : String := chooseEndpoint r1

def sampledParam (r1 r2 : Nat) : Nat :=
  let rg := nRanges (sampledEndpoint r1)
  randint rg.1 rg.2 r2

/-! ### Request outcomes (stress.py lines 36-55) -/

/-- result["status"]: an HTTP status code, or the string "Error" on a
transport failure. -/
inductive Status where
  | code (c : Nat)
  | errorTag
deriving DecidableEq

/-- The dict returned by request_random_endpoint. -/
structure Outcome where
  url : String
  endpoint : String
  status : Status
  time : ℚ
  error : Option String
  success : Bool
deriving DecidableEq

/-- What the call requests.get(url, timeout=10) did: returned a response
(status code, elapsed wall-clock time) or raised a RequestException
(message, elapsed time up to the failure). -/
inductive TransportResult where
  | ok (statusCode : Nat) (elapsed : ℚ)
  | exn (msg : String) (elapsed : ℚ)

/-- request_random_endpoint (stress.py lines 30-55), with the random draws
and the transport behaviour as explicit inputs.  The function is total in
the transport result: the except branch converts every RequestException
into an Outcome, so no transport failure propagates out of it. -/
def request_random_endpoint (r1 r2 : Nat) (tr : TransportResult) : Outcome :=
  let endpoint := sampledEndpoint r1
  let n := sampledParam r1 r2
  let url := BASE_URL ++ endpoint.replace "{n}" (toString n)
  match tr with
  | .ok statusCode elapsed =>
      { url := url, endpoint := endpoint, status := .code statusCode,
        time := elapsed, error := none, success := statusCode == 200 }
  | .exn msg elapsed =>
      { url := url, endpoint := endpoint, status := .errorTag,
        time := elapsed, error := some msg, success := false }

/-! ### Batch chunking (stress.py lines 71-79)

The loop is `for j in range(0, batch_size, MAX_WORKERS)` with
`chunk_size = min(MAX_WORKERS, batch_size - j)`.  For a step C >= 1,
range(0, B, C) enumerates the ceil(B / C) values 0, C, 2*C, ...; we keep
the concurrency cap C as a parameter in place of the constant
MAX_WORKERS. -/

/-- The values taken by j in range(0, B, C). -/
def chunkStarts (B C : Nat) : List Nat := (List.range ((B + C - 1) / C)).map (· * C)

/-- chunk_size = min(C, B - j) for each chunk start j. -/
def chunkSizes (B C : Nat) : List Nat := (chunkStarts B C).map (fun j => min C (B - j))

/-- The results list built by the chunking loop.  Each chunk runs
executor.map over range(chunk_size); Executor.map returns results in the
order of its inputs, so the chunk starting at j contributes the outcomes
of issued requests j, j+1, ..., j+chunk_size-1 in that order, and
results.extend concatenates the chunks in order.  f i stands for the
outcome of the i-th issued request of the batch. -/
def runBatch (f : Nat → Outcome) (B C : Nat) : List Outcome :=
  (chunkStarts B C).flatMap (fun j => (List.range (min C (B - j))).map (fun k => f (j + k)))

/-! ### Statistics engine (stress.py lines 94-98 and 112-132) -/

/-- sorted(l): the ascending-sorted copy of a durations series. -/
def sortAsc (D : List ℚ) : List ℚ := D.insertionSort (· ≤ ·)

/-- Python min(l): a left fold of two-argument min from the first element;
raises (none) on an empty list. -/
def listMin : List ℚ → Option ℚ
  | [] => none
  | x :: xs => some (xs.foldl min x)

/-- Python max(l), analogously. -/
def listMax : List ℚ → Option ℚ
  | [] => none
  | x :: xs => some (xs.foldl max x)

/-- statistics.median(l): middle element of the sorted copy for odd count,
average of the two middle elements for even count; raises (none) on an
empty list. -/
def median (D : List ℚ) : Option ℚ :=
  if (sortAsc D).length = 0 then none
  else if (sortAsc D).length % 2 = 1 then
    some ((sortAsc D).getD ((sortAsc D).length / 2) 0)
  else
    some (((sortAsc D).getD ((sortAsc D).length / 2 - 1) 0 +
      (sortAsc D).getD ((sortAsc D).length / 2) 0) / 2)

/-- int(n * 0.95) at line 123: float multiplication by 0.95 then
truncation toward zero.  For every series length reachable here the float
product rounds exactly as the rational product, so the rational model is
faithful. -/
def p95Index (n : Nat) : Nat := Int.toNat ⌊(n : ℚ) * (95 / 100 : ℚ)⌋

/-- sorted(all_times)[int(len(all_times)*0.95)] (line 123); out-of-range
indexing would raise, hence the Option. -/
def p95 (D : List ℚ) : Option ℚ := (sortAsc D).get? (p95Index D.length)

/-- Python division: raises ZeroDivisionError (none) on a zero
denominator. -/
def pyDiv (a b : ℚ) : Option ℚ := if b = 0 then none else some (a / b)

/-- Line 96: batch_success/len(results)*100, with no emptiness guard. -/
def batchSuccessLine (results : List Outcome) : Option ℚ :=
  (pyDiv ((results.filter (fun r => r.success)).length : ℚ) (results.length : ℚ)).map (· * 100)

/-- Line 115: success_count/total_count*100, with no emptiness guard. -/
def overallSuccessLine (success_count total_count : Nat) : Option ℚ :=
  (pyDiv (success_count : ℚ) (total_count : ℚ)).map (· * 100)

/-- The overall response-time block (lines 117-123) is printed only under
the `if all_times:` guard; on an empty series it is suppressed (none)
rather than computed. -/
def overallTimesSummary (all_times : List ℚ) :
    Option (ℚ × ℚ × ℚ × Option ℚ × Option ℚ) :=
  if all_times = [] then none
  else some ((listMin all_times).getD 0, (listMax all_times).getD 0,
    all_times.sum / (all_times.length : ℚ), median all_times, p95 all_times)

/-- Line 131, under the `if times:` guard:
sum(1 for t in times if t < 10)/len(times)*100.  The 10 is the fixed
request timeout in seconds. -/
def endpointSuccessRate (times : List ℚ) : ℚ :=
  (((times.filter (fun t => t < 10)).length : ℚ) / (times.length : ℚ)) * 100

/-! ### Cumulative run state (stress.py lines 57-92) -/

/-- The accumulators of the controller: all_times, success_count, total_count
and the defaultdict(list) endpoint_stats. -/
structure RunState where
  all_times : List ℚ
  success_count : Nat
  total_count : Nat
  endpoint_stats : String → List ℚ

/-- Lines 58-61: empty series, zero counters, empty default dict. -/
def initState : RunState :=
  { all_times := [], success_count := 0, total_count := 0,
    endpoint_stats := fun _ => [] }

/-- Lines 82-92: fold the results of one batch into the cumulative state.
batch_times = [r["time"] for r in results]; batch_success counts the
successful results; the per-endpoint loop appends the time of each result to
the bucket keyed by its endpoint template. -/
def recordBatch (s : RunState) (results : List Outcome) : RunState :=
  { all_times := s.all_times ++ results.map (fun r => r.time),
    success_count := s.success_count + (results.filter (fun r => r.success)).length,
    total_count := s.total_count + results.length,
    endpoint_stats := results.foldl
      (fun st r => fun e => if e = r.endpoint then st e ++ [r.time] else st e)
      s.endpoint_stats }

/-- The whole run, lines 66-92: one recordBatch per completed batch, in
order.  iterations = 0 gives the empty batch list. -/
def runFold (batches : List (List Outcome)) : RunState :=
  batches.foldl recordBatch initState

/-! ### The inter-batch sleep condition (stress.py lines 100-110)

Line 102 rebinds the loop variable i:
`for i, result in enumerate(sorted(results, ...)[:5])`.  When results is
non-empty that loop runs min(5, len(results)) times and leaves
i = min(5, len(results)) - 1; when results is empty the loop body never
runs and i keeps the outer batch index.  Line 108 then tests
`if i < iterations - 1` on that value. -/

/-- The value of i at line 108, for a batch with len(results) =
batch_size. -/
def shadowedIndex (batch_index batch_size : Nat) : Nat :=
  if batch_size = 0 then batch_index else min 5 batch_size - 1

/-- Whether the controller executes time.sleep(delay) after the batch at
0-based batch_index (iterations >= 1 so the Nat subtraction agrees with
Python). -/
def sleepsAfterBatch (batch_index iterations batch_size : Nat) : Bool :=
  shadowedIndex batch_index batch_size < iterations - 1

/-! ### Chunking lemmas -/

lemma chunkStarts_zero (C : Nat) : chunkStarts 0 C = [] := by
  unfold chunkStarts
  rcases Nat.eq_zero_or_pos C with h | h
  · subst h; rfl
  · rw [Nat.zero_add, Nat.div_eq_of_lt (by omega)]; rfl

lemma chunkStarts_eq {C : Nat} (hC : 1 ≤ C) (B : Nat) (hB : 1 ≤ B) :
    chunkStarts B C = 0 :: (chunkStarts (B - C) C).map (· + C) := by
  unfold chunkStarts
  have hm : (B + C - 1) / C = (B - C + C - 1) / C + 1 := by
    rcases le_or_lt C B with h | h
    · have he : B + C - 1 = (B - C + C - 1) + C := by omega
      rw [he, Nat.add_div_right _ (by omega)]
    · have h1 : (B + C - 1) / C = 1 := by
        apply Nat.div_eq_of_lt_le (by omega) (by omega)
      have h2 : B - C = 0 := by omega
      rw [h1, h2, Nat.zero_add, Nat.div_eq_of_lt (by omega)]
  rw [hm, List.range_succ_eq_map, List.map_cons, List.map_map]
  congr 1
  · show 0 * C = 0
    omega
  · rw [List.map_map]
    refine List.map_congr_left fun i _ => ?_
    show Nat.succ i * C = i * C + C
    exact Nat.succ_mul i C

lemma chunkSizes_zero (C : Nat) : chunkSizes 0 C = [] := by
  unfold chunkSizes; rw [chunkStarts_zero]; rfl

lemma chunkSizes_cons {B C : Nat} (hC : 1 ≤ C) (hB : 1 ≤ B) :
    chunkSizes B C = min C B :: chunkSizes (B - C) C := by
  unfold chunkSizes
  rw [chunkStarts_eq hC B hB, List.map_cons, List.map_map]
  congr 1
  refine List.map_congr_left fun j _ => ?_
  show min C (B - (j + C)) = min C (B - C - j)
  have h : B - (j + C) = B - C - j := by omega
  rw [h]

lemma runBatch_zero (f : Nat → Outcome) (C : Nat) : runBatch f 0 C = [] := by
  unfold runBatch; rw [chunkStarts_zero]; rfl

lemma flatMap_congr {α β : Type} {f g : α → List β} :
    ∀ l : List α, (∀ a ∈ l, f a = g a) → l.flatMap f = l.flatMap g
  | [], _ => rfl
  | a :: l, h => by
    rw [List.flatMap_cons, List.flatMap_cons, h a (by simp),
      flatMap_congr l (fun x hx => h x (by simp [hx]))]

lemma runBatch_cons {B C : Nat} (hC : 1 ≤ C) (hB : 1 ≤ B) (f : Nat → Outcome) :
    runBatch f B C =
      (List.range (min C B)).map f ++ runBatch (fun i => f (C + i)) (B - C) C := by
  unfold runBatch
  rw [chunkStarts_eq hC B hB, List.flatMap_cons, List.flatMap_map]
  congr 1
  · show (List.range (min C (B - 0))).map (fun k => f (0 + k)) = (List.range (min C B)).map f
    rw [Nat.sub_zero]
    exact List.map_congr_left fun k _ => congrArg f (Nat.zero_add k)
  · refine flatMap_congr _ fun j _ => ?_
    show (List.range (min C (B - (j + C)))).map (fun k => f (j + C + k)) =
      (List.range (min C (B - C - j))).map (fun k => f (C + (j + k)))
    have h : B - (j + C) = B - C - j := by omega
    rw [h]
    exact List.map_congr_left fun k _ => congrArg f (by omega)

lemma runBatch_eq_map {C : Nat} (hC : 1 ≤ C) :
    ∀ B f, runBatch f B C = (List.range B).map f := by
  intro B
  induction B using Nat.strong_induction_on with
  | _ B ih =>
    intro f
    rcases Nat.eq_zero_or_pos B with h0 | hB
    · subst h0; rw [runBatch_zero]; rfl
    · rw [runBatch_cons hC hB f, ih (B - C) (by omega)]
      rcases le_or_lt C B with h | h
      · rw [Nat.min_eq_left h]
        conv_rhs => rw [show B = C + (B - C) by omega]
        rw [List.range_add, List.map_append, List.map_map]
        rfl
      · have h2 : B - C = 0 := by omega
        rw [h2, Nat.min_eq_right (le_of_lt h)]
        simp

lemma chunkSizes_sum {C : Nat} (hC : 1 ≤ C) : ∀ B, (chunkSizes B C).sum = B := by
  intro B
  induction B using Nat.strong_induction_on with
  | _ B ih =>
    rcases Nat.eq_zero_or_pos B with h0 | hB
    · subst h0; rw [chunkSizes_zero]; rfl
    · rw [chunkSizes_cons hC hB, List.sum_cons, ih (B - C) (by omega)]
      omega

lemma chunkSizes_bounds {C : Nat} (hC : 1 ≤ C) :
    ∀ B, ∀ s ∈ chunkSizes B C, 1 ≤ s ∧ s ≤ C := by
  intro B
  induction B using Nat.strong_induction_on with
  | _ B ih =>
    intro s hs
    rcases Nat.eq_zero_or_pos B with h0 | hB
    · rw [h0, chunkSizes_zero] at hs
      simp at hs
    · rw [chunkSizes_cons hC hB] at hs
      rcases List.mem_cons.mp hs with h | h
      · subst h
        omega
      · exact ih (B - C) (by omega) s h

lemma chunkSizes_getLast {C : Nat} (hC : 1 ≤ C) :
    ∀ B, 1 ≤ B →
      (chunkSizes B C).getLast? = some (if B % C = 0 then C else B % C) := by
  intro B
  induction B using Nat.strong_induction_on with
  | _ B ih =>
    intro hB
    rcases le_or_lt B C with h | h
    · have h0 : B - C = 0 := by omega
      rw [chunkSizes_cons hC hB, h0, chunkSizes_zero]
      rcases eq_or_lt_of_le h with he | hlt
      · subst he
        simp [Nat.mod_self]
      · rw [Nat.min_eq_right (le_of_lt hlt), Nat.mod_eq_of_lt hlt,
          if_neg (by omega)]
        rfl
    · rw [chunkSizes_cons hC hB]
      have hB2 : 1 ≤ B - C := by omega
      rw [chunkSizes_cons hC hB2, List.getLast?_cons_cons, ← chunkSizes_cons hC hB2,
        ih (B - C) (by omega) hB2,
        show (B - C) % C = B % C from (Nat.mod_eq_sub_mod (by omega)).symm]

/-- A concrete outcome used to instantiate batch theorems. -/
def sampleOutcome : Outcome :=
  { url := BASE_URL ++ "/pi/3", endpoint := "/pi/{n}", status := .code 200,
    time := 1 / 2, error := none, success := true }

/-- A concrete slow outcome (elapsed time past the 10s timeout). -/
def slowOutcome : Outcome :=
  { url := BASE_URL ++ "/sort/500", endpoint := "/sort/{n}", status := .code 200,
    time := 20, error := none, success := true }

/-- C1: for every batch size B >= 1 and concurrency cap C with
1 <= C <= B, one batch produces exactly B outcomes, one per issued
request with no omissions or duplicates (the concatenation of the chunk
results is the outcome of every one of the B issued requests, once): the
chunking loop partitions B into consecutive chunks each of size at most C
(and at least 1), their sizes sum to B, the last chunk holds the
remainder (B mod C, or a full C when C divides B), and the concatenation
of all chunk results has length B. -/
theorem c1_batch_yields_B_outcomes (f : Nat → Outcome) (B C : Nat)
    (hB : 1 ≤ B) (hC : 1 ≤ C) (hCB : C ≤ B) :
    (runBatch f B C).length = B ∧
    runBatch f B C = (List.range B).map f ∧
    (∀ s ∈ chunkSizes B C, 1 ≤ s ∧ s ≤ C) ∧
    (chunkSizes B C).sum = B ∧
    (chunkSizes B C).getLast? = some (if B % C = 0 then C else B % C) := by
  have _ := hCB
  refine ⟨?_, runBatch_eq_map hC B f, chunkSizes_bounds hC B, chunkSizes_sum hC B,
    chunkSizes_getLast hC B hB⟩
  rw [runBatch_eq_map hC B f, List.length_map, List.length_range]

/-- Witness for C1 at B = 5, C = 2. -/
theorem c1_batch_yields_B_outcomes_witness :
    (runBatch (fun _ => sampleOutcome) 5 2).length = 5 ∧
    runBatch (fun _ => sampleOutcome) 5 2 = (List.range 5).map (fun _ => sampleOutcome) ∧
    (∀ s ∈ chunkSizes 5 2, 1 ≤ s ∧ s ≤ 2) ∧
    (chunkSizes 5 2).sum = 5 ∧
    (chunkSizes 5 2).getLast? = some (if 5 % 2 = 0 then 2 else 5 % 2) :=
  c1_batch_yields_B_outcomes (fun _ => sampleOutcome) 5 2 (by decide) (by decide)
    (by decide)

/-- C10: within a batch the collected results list preserves issuance
order — executor.map returns per-chunk results in input order and chunks
are concatenated in chunk order, so the results equal the issued
request outcomes in order and the i-th element corresponds to the i-th
issued request. -/
theorem c10_results_preserve_issuance_order (f : Nat → Outcome) (B C : Nat)
    (hC : 1 ≤ C) :
    runBatch f B C = (List.range B).map f ∧
    ∀ i, i < B → (runBatch f B C).get? i = some (f i) := by
  refine ⟨runBatch_eq_map hC B f, fun i hi => ?_⟩
  rw [runBatch_eq_map hC B f, List.get?_map, List.get?_range hi]
  rfl

/-- Witness for C10 at B = 5, C = 2, i = 3. -/
theorem c10_results_preserve_issuance_order_witness :
    runBatch (fun _ => sampleOutcome) 5 2 = (List.range 5).map (fun _ => sampleOutcome) ∧
    (runBatch (fun _ => sampleOutcome) 5 2).get? 3 = some sampleOutcome :=
  ⟨(c10_results_preserve_issuance_order (fun _ => sampleOutcome) 5 2 (by decide)).1,
   (c10_results_preserve_issuance_order (fun _ => sampleOutcome) 5 2 (by decide)).2 3
     (by decide)⟩

/-- C5: the transport-level success flag is true iff the HTTP status code
equals 200; any transport failure is converted locally into an outcome
with success = false, the "Error" status tag, the underlying error
message and the elapsed time up to the failure.  request_random_endpoint
is total in the transport result, so no transport failure escapes it. -/
theorem c5_success_iff_status_200 (r1 r2 : Nat) (tr : TransportResult) :
    ((request_random_endpoint r1 r2 tr).success = true ↔
      (request_random_endpoint r1 r2 tr).status = .code 200) ∧
    (∀ sc el, tr = .ok sc el →
      (request_random_endpoint r1 r2 tr).success = (sc == 200) ∧
      (request_random_endpoint r1 r2 tr).status = .code sc ∧
      (request_random_endpoint r1 r2 tr).time = el ∧
      (request_random_endpoint r1 r2 tr).error = none) ∧
    (∀ msg el, tr = .exn msg el →
      (request_random_endpoint r1 r2 tr).success = false ∧
      (request_random_endpoint r1 r2 tr).status = .errorTag ∧
      (request_random_endpoint r1 r2 tr).error = some msg ∧
      (request_random_endpoint r1 r2 tr).time = el) := by
  rcases tr with ⟨sc, el⟩ | ⟨msg, el⟩ <;>
    refine ⟨?_, ?_, ?_⟩ <;>
    simp [request_random_endpoint]

/-- Witness for C5 on a timeout failure after 3 seconds. -/
theorem c5_success_iff_status_200_witness :
    ((request_random_endpoint 0 0 (.exn "timeout" 3)).success = true ↔
      (request_random_endpoint 0 0 (.exn "timeout" 3)).status = .code 200) ∧
    ((request_random_endpoint 0 0 (.exn "timeout" 3)).success = false ∧
      (request_random_endpoint 0 0 (.exn "timeout" 3)).status = .errorTag ∧
      (request_random_endpoint 0 0 (.exn "timeout" 3)).error = some "timeout" ∧
      (request_random_endpoint 0 0 (.exn "timeout" 3)).time = 3) :=
  ⟨(c5_success_iff_status_200 0 0 (.exn "timeout" 3)).1,
   (c5_success_iff_status_200 0 0 (.exn "timeout" 3)).2.2 "timeout" 3 rfl⟩

lemma randint_bounds {lo hi : Nat} (h : lo ≤ hi) (r : Nat) :
    lo ≤ randint lo hi r ∧ randint lo hi r ≤ hi := by
  unfold randint
  have hp : 0 < hi + 1 - lo := by omega
  have := Nat.mod_lt r hp
  omega

lemma nRanges_le (e : String) : (nRanges e).1 ≤ (nRanges e).2 := by
  unfold nRanges
  split_ifs <;> decide

lemma sampledEndpoint_mem (r1 : Nat) : sampledEndpoint r1 ∈ ENDPOINTS := by
  unfold sampledEndpoint chooseEndpoint
  have h : r1 % ENDPOINTS.length < ENDPOINTS.length := Nat.mod_lt _ (by decide)
  rw [List.getD_eq_get _ _ h]
  exact List.get_mem _ _ h

/-- C7: every sampled endpoint comes from the configured endpoint list,
the sampled parameter n satisfies minParam <= n <= maxParam for the
range configured for that endpoint (both inclusive), and an endpoint
absent from the range table gets the default range [1, 100]. -/
theorem c7_sample_ranges (r1 r2 : Nat) :
    sampledEndpoint r1 ∈ ENDPOINTS ∧
    (nRanges (sampledEndpoint r1)).1 ≤ sampledParam r1 r2 ∧
    sampledParam r1 r2 ≤ (nRanges (sampledEndpoint r1)).2 ∧
    (∀ s, s ∉ N_RANGES_keys → nRanges s = (1, 100)) := by
  have hb := randint_bounds (nRanges_le (sampledEndpoint r1)) r2
  have he : sampledParam r1 r2 =
      randint (nRanges (sampledEndpoint r1)).1 (nRanges (sampledEndpoint r1)).2 r2 := rfl
  refine ⟨sampledEndpoint_mem r1, he ▸ hb.1, he ▸ hb.2, ?_⟩
  intro s hs
  unfold nRanges
  split_ifs with h1 h2 h3 h4 h5 h6
  · subst h1; exact absurd (by decide) hs
  · subst h2; exact absurd (by decide) hs
  · subst h3; exact absurd (by decide) hs
  · subst h4; exact absurd (by decide) hs
  · subst h5; exact absurd (by decide) hs
  · subst h6; exact absurd (by decide) hs
  · rfl

/-- Witness for C7 at residues 3 and 7 and an unknown endpoint. -/
theorem c7_sample_ranges_witness :
    sampledEndpoint 3 ∈ ENDPOINTS ∧
    (nRanges (sampledEndpoint 3)).1 ≤ sampledParam 3 7 ∧
    sampledParam 3 7 ≤ (nRanges (sampledEndpoint 3)).2 ∧
    nRanges "/unknown/{n}" = (1, 100) :=
  ⟨(c7_sample_ranges 3 7).1, (c7_sample_ranges 3 7).2.1,
   (c7_sample_ranges 3 7).2.2.1,
   (c7_sample_ranges 3 7).2.2.2 "/unknown/{n}" (by decide)⟩

/-! ### Statistics lemmas -/

lemma sortAsc_length (D : List ℚ) : (sortAsc D).length = D.length :=
  (List.perm_insertionSort (· ≤ ·) D).length_eq

lemma getD_mem {l : List ℚ} {i : Nat} (h : i < l.length) : l.getD i 0 ∈ l := by
  rw [List.getD_eq_get _ _ h]
  exact List.get_mem _ _ h

lemma sortAsc_getD_mem {D : List ℚ} {i : Nat} (h : i < (sortAsc D).length) :
    (sortAsc D).getD i 0 ∈ D :=
  (List.perm_insertionSort (· ≤ ·) D).mem_iff.mp (getD_mem h)

lemma foldl_min_le : ∀ (xs : List ℚ) (x : ℚ),
    xs.foldl min x ≤ x ∧ ∀ y ∈ xs, xs.foldl min x ≤ y := by
  intro xs
  induction xs with
  | nil => exact fun x => ⟨le_refl x, by simp⟩
  | cons a l ih =>
    intro x
    have h := ih (min x a)
    rw [List.foldl_cons]
    refine ⟨h.1.trans (min_le_left x a), fun y hy => ?_⟩
    rcases List.mem_cons.mp hy with rfl | hy
    · exact h.1.trans (min_le_right x y)
    · exact h.2 y hy

lemma foldl_max_ge : ∀ (xs : List ℚ) (x : ℚ),
    x ≤ xs.foldl max x ∧ ∀ y ∈ xs, y ≤ xs.foldl max x := by
  intro xs
  induction xs with
  | nil => exact fun x => ⟨le_refl x, by simp⟩
  | cons a l ih =>
    intro x
    have h := ih (max x a)
    rw [List.foldl_cons]
    refine ⟨(le_max_left x a).trans h.1, fun y hy => ?_⟩
    rcases List.mem_cons.mp hy with rfl | hy
    · exact (le_max_right x y).trans h.1
    · exact h.2 y hy

lemma listMin_spec {D : List ℚ} (h : D ≠ []) :
    ∃ mn, listMin D = some mn ∧ ∀ y ∈ D, mn ≤ y := by
  match D, h with
  | x :: xs, _ =>
    refine ⟨xs.foldl min x, rfl, fun y hy => ?_⟩
    rcases List.mem_cons.mp hy with rfl | hy
    · exact (foldl_min_le xs y).1
    · exact (foldl_min_le xs x).2 y hy

lemma listMax_spec {D : List ℚ} (h : D ≠ []) :
    ∃ mx, listMax D = some mx ∧ ∀ y ∈ D, y ≤ mx := by
  match D, h with
  | x :: xs, _ =>
    refine ⟨xs.foldl max x, rfl, fun y hy => ?_⟩
    rcases List.mem_cons.mp hy with rfl | hy
    · exact (foldl_max_ge xs y).1
    · exact (foldl_max_ge xs x).2 y hy

/-- The median lies between two members of the series. -/
lemma median_between {D : List ℚ} (h : D ≠ []) :
    ∃ md a b, median D = some md ∧ a ∈ D ∧ b ∈ D ∧ a ≤ md ∧ md ≤ b := by
  have hn : 1 ≤ D.length := List.length_pos.mpr h
  have hlen : (sortAsc D).length = D.length := sortAsc_length D
  have h0 : ¬ (sortAsc D).length = 0 := by omega
  by_cases hodd : (sortAsc D).length % 2 = 1
  · have hi : (sortAsc D).length / 2 < (sortAsc D).length := by omega
    refine ⟨(sortAsc D).getD ((sortAsc D).length / 2) 0, _, _, ?_,
      sortAsc_getD_mem hi, sortAsc_getD_mem hi, le_refl _, le_refl _⟩
    unfold median
    rw [if_neg h0, if_pos hodd]
  · have hi : (sortAsc D).length / 2 < (sortAsc D).length := by omega
    have hi1 : (sortAsc D).length / 2 - 1 < (sortAsc D).length := by omega
    set x := (sortAsc D).getD ((sortAsc D).length / 2 - 1) 0 with hx
    set y := (sortAsc D).getD ((sortAsc D).length / 2) 0 with hy
    refine ⟨(x + y) / 2, min x y, max x y, ?_, ?_, ?_, ?_, ?_⟩
    · unfold median
      rw [if_neg h0, if_neg hodd]
    · rcases min_choice x y with hc | hc <;> rw [hc]
      · exact sortAsc_getD_mem hi1
      · exact sortAsc_getD_mem hi
    · rcases max_choice x y with hc | hc <;> rw [hc]
      · exact sortAsc_getD_mem hi1
      · exact sortAsc_getD_mem hi
    · have h1 := min_le_left x y
      have h2 := min_le_right x y
      linarith
    · have h1 := le_max_left x y
      have h2 := le_max_right x y
      linarith

/-- C8: for every non-empty durations series the summary is ordered:
min(D) <= median(D) <= max(D), with median the standard order-statistic
median (average of the two middle values for an even count). -/
theorem c8_min_le_median_le_max (D : List ℚ) (h : D ≠ []) :
    ∃ mn md mx, listMin D = some mn ∧ median D = some md ∧
      listMax D = some mx ∧ mn ≤ md ∧ md ≤ mx := by
  obtain ⟨mn, hmn, hmnle⟩ := listMin_spec h
  obtain ⟨mx, hmx, hmxge⟩ := listMax_spec h
  obtain ⟨md, a, b, hmd, ha, hb, hale, hble⟩ := median_between h
  exact ⟨mn, md, mx, hmn, hmd, hmx, (hmnle a ha).trans hale,
    hble.trans (hmxge b hb)⟩

/-- Witness for C8 on the series [3, 1, 2]. -/
theorem c8_min_le_median_le_max_witness :
    ∃ mn md mx, listMin [(3 : ℚ), 1, 2] = some mn ∧ median [(3 : ℚ), 1, 2] = some md ∧
      listMax [(3 : ℚ), 1, 2] = some mx ∧ mn ≤ md ∧ md ≤ mx :=
  c8_min_le_median_le_max [(3 : ℚ), 1, 2] (by simp)

/-- C2: for every non-empty durations series the reported 95th percentile
is the element of the ascending-sorted copy at 0-based index
floor(0.95 * len(D)) — nearest rank, no interpolation. -/
theorem c2_p95_nearest_rank (D : List ℚ) (h : D ≠ []) :
    ∃ i : ℕ, (i : ℤ) = ⌊(95 : ℚ) / 100 * (D.length : ℚ)⌋ ∧ i < D.length ∧
      p95 D = some ((sortAsc D).getD i 0) := by
  have hn : 1 ≤ D.length := List.length_pos.mpr h
  have hlen : (sortAsc D).length = D.length := sortAsc_length D
  have hnn : (0 : ℚ) ≤ (D.length : ℚ) * (95 / 100) := by positivity
  have hfl0 : 0 ≤ ⌊(D.length : ℚ) * (95 / 100 : ℚ)⌋ := Int.floor_nonneg.mpr hnn
  have hlt : ⌊(D.length : ℚ) * (95 / 100 : ℚ)⌋ < (D.length : ℤ) := by
    rw [Int.floor_lt]
    push_cast
    have hpos : (0 : ℚ) < (D.length : ℚ) := by exact_mod_cast hn
    nlinarith
  have hidx : p95Index D.length < D.length := by
    unfold p95Index
    omega
  refine ⟨p95Index D.length, ?_, hidx, ?_⟩
  · unfold p95Index
    rw [Int.toNat_of_nonneg hfl0, mul_comm]
  · have hidx2 : p95Index D.length < (sortAsc D).length := by omega
    unfold p95
    rw [List.get?_eq_get hidx2, List.getD_eq_get _ _ hidx2]

/-- Witness for C2 on the series [5, 4, 3, 2, 1]. -/
theorem c2_p95_nearest_rank_witness :
    ∃ i : ℕ, (i : ℤ) = ⌊(95 : ℚ) / 100 * (([(5 : ℚ), 4, 3, 2, 1] : List ℚ).length : ℚ)⌋ ∧
      i < ([(5 : ℚ), 4, 3, 2, 1] : List ℚ).length ∧
      p95 [(5 : ℚ), 4, 3, 2, 1] = some ((sortAsc [(5 : ℚ), 4, 3, 2, 1]).getD i 0) :=
  c2_p95_nearest_rank [(5 : ℚ), 4, 3, 2, 1] (by simp)

/-! ### Run-state lemmas -/

lemma recordBatch_stats (results : List Outcome) (st : String → List ℚ) (e : String) :
    (results.foldl
      (fun st r => fun e => if e = r.endpoint then st e ++ [r.time] else st e) st) e =
      st e ++ (results.filter (fun o => o.endpoint = e)).map (fun o => o.time) := by
  induction results generalizing st with
  | nil => simp
  | cons r l ih =>
    rw [List.foldl_cons, ih, List.filter_cons]
    by_cases hc : r.endpoint = e
    · simp [hc]
    · have he : ¬ e = r.endpoint := fun hx => hc hx.symm
      simp [hc, he]

lemma runFold_channels : ∀ (batches : List (List Outcome)) (s : RunState),
    (batches.foldl recordBatch s).all_times =
      s.all_times ++ (batches.flatten).map (fun o => o.time) ∧
    (batches.foldl recordBatch s).success_count =
      s.success_count + ((batches.flatten).filter (fun o => o.success)).length ∧
    (batches.foldl recordBatch s).total_count =
      s.total_count + (batches.flatten).length ∧
    ∀ e, (batches.foldl recordBatch s).endpoint_stats e =
      s.endpoint_stats e ++
        ((batches.flatten).filter (fun o => o.endpoint = e)).map (fun o => o.time) := by
  intro batches
  induction batches with
  | nil => intro s; simp
  | cons b bs ih =>
    intro s
    obtain ⟨h1, h2, h3, h4⟩ := ih (recordBatch s b)
    rw [List.foldl_cons, List.flatten_cons]
    refine ⟨?_, ?_, ?_, fun e => ?_⟩
    · rw [h1]
      show (s.all_times ++ b.map (fun o => o.time)) ++ _ = _
      rw [List.map_append, List.append_assoc]
    · rw [h2]
      show (s.success_count + (b.filter (fun o => o.success)).length) + _ = _
      rw [List.filter_append, List.length_append]
      omega
    · rw [h3]
      show (s.total_count + b.length) + _ = _
      rw [List.length_append]
      omega
    · rw [h4 e]
      show (b.foldl
          (fun st r => fun e => if e = r.endpoint then st e ++ [r.time] else st e)
          s.endpoint_stats) e ++ _ = _
      rw [recordBatch_stats, List.filter_append, List.map_append, List.append_assoc]

lemma sum_map_add (keys : List String) (f g : String → Nat) :
    (keys.map fun e => f e + g e).sum = (keys.map f).sum + (keys.map g).sum := by
  induction keys with
  | nil => rfl
  | cons a ks ih => simp [ih]; omega

lemma sum_indicator_zero {x : String} :
    ∀ {keys : List String}, x ∉ keys →
      (keys.map fun e => if x = e then 1 else 0).sum = 0 := by
  intro keys
  induction keys with
  | nil => intro; rfl
  | cons a ks ih =>
    intro hx
    have hxa : ¬ x = a := fun hc => hx (hc ▸ List.mem_cons_self a ks)
    have hxs : x ∉ ks := fun hc => hx (List.mem_cons_of_mem a hc)
    simp [hxa, ih hxs]

lemma sum_indicator_one {x : String} :
    ∀ {keys : List String}, keys.Nodup → x ∈ keys →
      (keys.map fun e => if x = e then 1 else 0).sum = 1 := by
  intro keys
  induction keys with
  | nil => intro _ hx; simp at hx
  | cons a ks ih =>
    intro hnd hx
    have hnd2 := List.nodup_cons.mp hnd
    rcases List.mem_cons.mp hx with rfl | hx2
    · simp [sum_indicator_zero hnd2.1]
    · have hxa : ¬ x = a := fun hc => hnd2.1 (hc ▸ hx2)
      simp [hxa, ih hnd2.2 hx2]

lemma sum_count_endpoints {keys : List String} (hnd : keys.Nodup) :
    ∀ l : List Outcome, (∀ o ∈ l, o.endpoint ∈ keys) →
      (keys.map (fun e => (l.filter (fun o => o.endpoint = e)).length)).sum = l.length := by
  intro l
  induction l with
  | nil => intro; simp
  | cons o l ih =>
    intro hmem
    have h1 : (keys.map (fun e => ((o :: l).filter (fun o' => o'.endpoint = e)).length)).sum
        = (keys.map (fun e =>
            (if o.endpoint = e then 1 else 0) +
              (l.filter (fun o' => o'.endpoint = e)).length)).sum := by
      congr 1
      refine List.map_congr_left fun e _ => ?_
      rw [List.filter_cons]
      by_cases hc : o.endpoint = e <;> simp [hc] <;> omega
    rw [h1, sum_map_add,
      sum_indicator_one hnd (hmem o (List.mem_cons_self o l)),
      ih (fun x hx => hmem x (List.mem_cons_of_mem o hx))]
    simp [Nat.add_comm]

lemma endpoints_nodup : ENDPOINTS.Nodup := by decide

/-- C9: after every completed batch the global counters are consistent:
len(all_times) = total_count = sum over the endpoints of the length of
the duration series of that endpoint, total_count = (number of completed
batches) * batch_size, success_count <= total_count, and the duration of each
outcome is appended exactly once to the global series and exactly once
to the bucket keyed by its endpoint template. -/
theorem c9_cumulative_state_invariants (batch_size : Nat)
    (batches : List (List Outcome))
    (hlen : ∀ b ∈ batches, b.length = batch_size)
    (hep : ∀ b ∈ batches, ∀ o ∈ b, o.endpoint ∈ ENDPOINTS) :
    (runFold batches).all_times.length = (runFold batches).total_count ∧
    (runFold batches).total_count = batches.length * batch_size ∧
    (runFold batches).total_count =
      (ENDPOINTS.map (fun e => ((runFold batches).endpoint_stats e).length)).sum ∧
    (runFold batches).success_count ≤ (runFold batches).total_count ∧
    (runFold batches).all_times = (batches.flatten).map (fun o => o.time) ∧
    ∀ e, (runFold batches).endpoint_stats e =
      ((batches.flatten).filter (fun o => o.endpoint = e)).map (fun o => o.time) := by
  obtain ⟨h1, h2, h3, h4⟩ := runFold_channels batches initState
  have hflat : ∀ o ∈ batches.flatten, o.endpoint ∈ ENDPOINTS := by
    intro o ho
    obtain ⟨b, hb, hob⟩ := List.mem_flatten.mp ho
    exact hep b hb o hob
  have hall : (runFold batches).all_times = (batches.flatten).map (fun o => o.time) := by
    rw [runFold, h1]
    rfl
  have htot : (runFold batches).total_count = (batches.flatten).length := by
    rw [runFold, h3]
    show 0 + _ = _
    exact Nat.zero_add _
  have hstats : ∀ e, (runFold batches).endpoint_stats e =
      ((batches.flatten).filter (fun o => o.endpoint = e)).map (fun o => o.time) := by
    intro e
    rw [runFold, h4 e]
    rfl
  refine ⟨?_, ?_, ?_, ?_, hall, hstats⟩
  · rw [hall, htot, List.length_map]
  · rw [htot, List.length_flatten]
    have hmap : batches.map List.length = batches.map (fun _ => batch_size) :=
      List.map_congr_left fun b hb => hlen b hb
    rw [hmap, List.map_const', List.sum_replicate, smul_eq_mul]
  · rw [htot]
    have hcong : ENDPOINTS.map (fun e => ((runFold batches).endpoint_stats e).length) =
        ENDPOINTS.map (fun e =>
          ((batches.flatten).filter (fun o => o.endpoint = e)).length) :=
      List.map_congr_left fun e _ => by rw [hstats e, List.length_map]
    rw [hcong, sum_count_endpoints endpoints_nodup (batches.flatten) hflat]
  · rw [runFold, h2, h3]
    have := List.length_filter_le (fun o => o.success) batches.flatten
    show 0 + _ ≤ 0 + _
    omega

/-- Witness for C9 on one batch of one outcome. -/
theorem c9_cumulative_state_invariants_witness :
    (runFold [[sampleOutcome]]).all_times.length = (runFold [[sampleOutcome]]).total_count ∧
    (runFold [[sampleOutcome]]).total_count =
      ([[sampleOutcome]] : List (List Outcome)).length * 1 ∧
    (runFold [[sampleOutcome]]).endpoint_stats "/pi/{n}" =
      ((([[sampleOutcome]] : List (List Outcome)).flatten).filter
        (fun o => o.endpoint = "/pi/{n}")).map (fun o => o.time) := by
  have h := c9_cumulative_state_invariants 1 [[sampleOutcome]]
    (by decide) (by decide)
  exact ⟨h.1, h.2.1, h.2.2.2.2.2 "/pi/{n}"⟩

/-- C3 fails on the code: with iterations = 0 (no batches) the empty
overall duration series is indeed suppressed, but line 115 still computes
success_count/total_count with total_count = 0, a ZeroDivisionError; with
batch_size = 0 line 96 divides batch_success by len(results) = 0.  The
none results below are exactly those unguarded zero divisions. -/
theorem c3_success_rate_divides_by_zero :
    (runFold []).total_count = 0 ∧
    overallSuccessLine (runFold []).success_count (runFold []).total_count = none ∧
    overallTimesSummary (runFold []).all_times = none ∧
    batchSuccessLine [] = none := by
  refine ⟨rfl, ?_, ?_, ?_⟩ <;> decide

/-- C4 fails on the code: line 102 rebinds the loop variable i inside the
slowest-responses loop, so line 108 compares min(5, batch_size) - 1
against iterations - 1 instead of the batch index.  With iterations = 2
and batch_size = 1 the controller sleeps after the final batch; with
iterations = 3 and batch_size = 100 it does not sleep even between
batches. -/
theorem c4_sleep_uses_shadowed_index :
    sleepsAfterBatch 1 2 1 = true ∧ sleepsAfterBatch 0 3 100 = false := by
  decide

/-- C6: the per-endpoint success percentage is the fraction of recorded
durations strictly below the 10-second timeout times 100, computed from
the duration series alone — changing the HTTP success flag of every outcome
leaves it unchanged. -/
lemma filter_time_map (os : List Outcome) :
    (os.map (fun o => o.time)).filter (fun t => t < 10) =
      (os.filter (fun o => o.time < 10)).map (fun o => o.time) := by
  induction os with
  | nil => rfl
  | cons o l ih =>
    rw [List.map_cons, List.filter_cons, List.filter_cons]
    by_cases hc : o.time < 10 <;> simp [hc, ih]

theorem c6_endpoint_success_is_time_proxy (os : List Outcome) (h : os ≠ []) :
    endpointSuccessRate (os.map (fun o => o.time)) =
      ((os.filter (fun o => o.time < 10)).length : ℚ) / (os.length : ℚ) * 100 ∧
    ∀ flip : Outcome → Bool,
      endpointSuccessRate
          ((os.map (fun o => { o with success := flip o })).map (fun o => o.time)) =
        endpointSuccessRate (os.map (fun o => o.time)) := by
  constructor
  · unfold endpointSuccessRate
    rw [filter_time_map os, List.length_map, List.length_map]
  · intro flip
    rw [List.map_map]
    rfl

/-- Witness for C6 on one fast and one slow outcome. -/
theorem c6_endpoint_success_is_time_proxy_witness :
    endpointSuccessRate ([sampleOutcome, slowOutcome].map (fun o => o.time)) =
      (([sampleOutcome, slowOutcome].filter (fun o => o.time < 10)).length : ℚ) /
        (([sampleOutcome, slowOutcome] : List Outcome).length : ℚ) * 100 ∧
    endpointSuccessRate
        (([sampleOutcome, slowOutcome].map
          (fun o => { o with success := (fun _ => false) o })).map (fun o => o.time)) =
      endpointSuccessRate ([sampleOutcome, slowOutcome].map (fun o => o.time)) :=
  ⟨(c6_endpoint_success_is_time_proxy [sampleOutcome, slowOutcome] (by simp)).1,
   (c6_endpoint_success_is_time_proxy [sampleOutcome, slowOutcome] (by simp)).2
     (fun _ => false)⟩

end Stress
